import Mathlib

/-!
Verification of the core client-side logic of the logbook generator
(`src/frontend/src/App.js`): the time parsers, the date/time sort order,
the quota-safe localStorage writer, the adaptive image-compression driver,
and the compressor's dimension arithmetic.

JavaScript numbers are modelled by `JSNum` (an integer or NaN); numeric
array destructuring that can miss (`const [h, m] = ...`) is modelled with
`Option JSNum`, where `none` plays the role of `undefined`.  All integer
arithmetic appearing in the source (`Math.floor(x * 0.8)`,
`Math.floor(len * 0.75)`, quality steps of 0.1 from 0.7) is exact in
rationals at every reachable value, so `Nat`/`Int`/`Rat` arithmetic is a
faithful model of the float computations the code performs.
-/

namespace Logbook

/-- A JavaScript number: an integer value or NaN.  All numbers produced by
the logbook's parsers are integers (minutes, epoch milliseconds). -/
inductive JSNum where
  | num (n : ℤ)
  | nan
deriving DecidableEq, Repr

/-- `Number.isNaN` applied to a possibly-`undefined` value: it is `true`
only on an actual NaN, and `false` on `undefined`. -/
def isNaNv : Option JSNum → Bool
  | some .nan => true
  | _ => false

/-- `ToNumber` coercion used implicitly by JS arithmetic: `undefined`
becomes NaN. -/
def toNum : Option JSNum → JSNum
  | some v => v
  | none => .nan

/-- JS addition: NaN is absorbing. -/
def jsAdd : JSNum → JSNum → JSNum
  | .num a, .num b => .num (a + b)
  | _, _ => .nan

/-- JS subtraction: NaN is absorbing. -/
def jsSubN : JSNum → JSNum → JSNum
  | .num a, .num b => .num (a - b)
  | _, _ => .nan

/-- JS multiplication by an integer constant: NaN is absorbing. -/
def jsMul : JSNum → ℤ → JSNum
  | .num a, k => .num (a * k)
  | .nan, _ => .nan

/-- JS comparison `x > k`: false when `x` is NaN. -/
def jsGt : JSNum → ℤ → Bool
  | .num a, k => k < a
  | .nan, _ => false

/-- JS whitespace accepted by `parseInt` before the number. -/
def isJsSpace (c : Char) : Bool :=
  c = ' ' || c = '\t' || c = '\n' || c = '\r'

/-- Digit-string accumulation, `"123"` ↦ `123`. -/
def digitsToNat (ds : List Char) : ℕ :=
  ds.foldl (fun n c => n * 10 + (c.toNat - 48)) 0

/-- Model of `parseInt(s, 10)`: skip leading whitespace, read an optional
sign and then the longest prefix of decimal digits (trailing characters are
ignored); NaN when no digit is found. -/
def parseIntJS (s : String) : JSNum :=
  let cs := s.data.dropWhile isJsSpace
  let signed : ℤ × List Char :=
    match cs with
    | '-' :: r => (-1, r)
    | '+' :: r => (1, r)
    | r => (1, r)
  let ds := signed.2.takeWhile Char.isDigit
  if ds.isEmpty then .nan else .num (signed.1 * (digitsToNat ds : ℤ))

/-- Scanner for `jsSplit`.  The fuel is an upper bound on the number of
characters still to scan, making the recursion structural (and hence
kernel-computable); it never runs out because each step consumes at least
one character. -/
def jsSplitAux (sep : List Char) : ℕ → List Char → List Char → List (List Char)
  | 0, cs, acc => [acc.reverse ++ cs]
  | _ + 1, [], acc => [acc.reverse]
  | fuel + 1, c :: cs, acc =>
    if sep.isPrefixOf (c :: cs) then
      acc.reverse :: jsSplitAux sep fuel (cs.drop (sep.length - 1)) []
    else
      jsSplitAux sep fuel cs (c :: acc)

/-- Model of JS `s.split(sep)` for a non-empty separator: greedy
left-to-right scan, keeping empty fields (`"".split(x) = [""]`). -/
def jsSplit (s sep : String) : List String :=
  (jsSplitAux sep.data s.data.length s.data []).map (fun cs => ⟨cs⟩)

/-- The argument of the jam parsers: either a genuine string or any other
JS value (null, undefined, a number, ...), which the guard
`!jam || typeof jam !== 'string'` rejects. -/
inductive JamArg where
  | notStr
  | jstr (s : String)
deriving DecidableEq, Repr

/-- `split(':')` followed by `map(v => parseInt(v, 10))`, as applied to one
side of the jam string. -/
def timeComps (s : String) : List JSNum :=
  (jsSplit s ":").map parseIntJS

/-- `jam.split(' - ')[0] || ''` — the start part of a jam string. -/
def startPart (s : String) : String :=
  ((jsSplit s " - ").headD "")

/-- Model of `parseMinutesFromJam` (App.js lines 374–386): duration in
minutes of a `"HH:MM - HH:MM"` jam string, `0` on any malformed input or
non-positive difference. -/
def parseMinutesFromJam : JamArg → JSNum
  | .notStr => .num 0
  | .jstr s =>
    if s = "" then .num 0
    else
      match jsSplit s " - " with
      | [a, b] =>
        let sc := timeComps a
        let ec := timeComps b
        if isNaNv (sc.get? 0) || isNaNv (sc.get? 1)
            || isNaNv (ec.get? 0) || isNaNv (ec.get? 1) then .num 0
        else
          let startMin := jsAdd (jsMul (toNum (sc.get? 0)) 60) (toNum (sc.get? 1))
          let endMin := jsAdd (jsMul (toNum (ec.get? 0)) 60) (toNum (ec.get? 1))
          let diff := jsSubN endMin startMin
          if jsGt diff 0 then diff else .num 0
      | _ => .num 0

/-- Model of `getStartMinutes` (App.js lines 388–394): minutes since
midnight of the start time of a jam string. -/
def getStartMinutes : JamArg → JSNum
  | .notStr => .num 0
  | .jstr s =>
    if s = "" then .num 0
    else
      let lst := timeComps (startPart s)
      if isNaNv (lst.get? 0) || isNaNv (lst.get? 1) then .num 0
      else jsAdd (jsMul (toNum (lst.get? 0)) 60) (toNum (lst.get? 1))

/-! ### Entries and the date/time sort of App.js -/

/-- An in-memory log entry as held in the React state: text fields plus the
raw image payload and its IndexedDB reference key, either of which may be
null. -/
structure Entry where
  id : String
  tanggal : String
  jam : String
  judul_kegiatan : String
  rincian_kegiatan : String
  dokumen_pendukung : Option String
  dokumen_pendukung_key : Option String
deriving DecidableEq, Repr

/-- Gregorian leap year. -/
def isLeapYear (y : ℕ) : Bool :=
  y % 4 = 0 && (y % 100 ≠ 0 || y % 400 = 0)

/-- Length of month `m` (1-based) in year `y`. -/
def daysInMonth (y m : ℕ) : ℕ :=
  if m = 2 then (if isLeapYear y then 29 else 28)
  else if m = 4 || m = 6 || m = 9 || m = 11 then 30
  else 31

/-- Days in the months strictly before month `m` (1-based) of year `y`. -/
def daysBeforeMonth (y m : ℕ) : ℕ :=
  (List.range (m - 1)).foldl (fun acc i => acc + daysInMonth y (i + 1)) 0

/-- Days between 1970-01-01 and the civil date `y-m-d` (may be negative for
dates before the epoch). -/
def daysSinceEpoch (y m d : ℕ) : ℤ :=
  ((365 * (y - 1) + (y - 1) / 4 - (y - 1) / 100 + (y - 1) / 400
      + daysBeforeMonth y m + (d - 1) : ℕ) : ℤ) - 719162

/-- Model of the ECMAScript `Date` parse (`new Date(s).getTime()`) for the
ISO `YYYY-MM-DD` date-only strings the app stores in `tanggal`: midnight
UTC in epoch milliseconds, NaN for anything not of that shape or not a real
calendar date.  (The engine's legacy fallback parser for other formats is
outside this model.) -/
def dateParseMs (s : String) : JSNum :=
  match jsSplit s "-" with
  | [ys, ms, ds] =>
    if ys.length = 4 && ms.length = 2 && ds.length = 2
        && ys.data.all Char.isDigit && ms.data.all Char.isDigit && ds.data.all Char.isDigit then
      let y := digitsToNat ys.data
      let m := digitsToNat ms.data
      let d := digitsToNat ds.data
      if 1 ≤ y && 1 ≤ m && m ≤ 12 && 1 ≤ d && d ≤ daysInMonth y m then
        .num (daysSinceEpoch y m d * 86400000)
      else .nan
    else .nan
  | _ => .nan

/-- `a.tanggal ? new Date(a.tanggal).getTime() : 0` from
`compareByDateTime`. -/
def tanggalVal (e : Entry) : JSNum :=
  if e.tanggal = "" then .num 0 else dateParseMs e.tanggal

/-- The start-minutes key used by `compareByDateTime` on an entry. -/
def startVal (e : Entry) : JSNum :=
  getStartMinutes (.jstr e.jam)

/-- JS strict inequality `ta !== tb` on numbers: NaN is unequal to
everything, including itself. -/
def jsStrictNeNum : JSNum → JSNum → Bool
  | .num a, .num b => a ≠ b
  | _, _ => true

/-- Model of `compareByDateTime` (App.js lines 396–403): earlier date
first, then earlier start time. -/
def compareByDateTime (a b : Entry) : JSNum :=
  if jsStrictNeNum (tanggalVal a) (tanggalVal b) then
    jsSubN (tanggalVal a) (tanggalVal b)
  else
    jsSubN (startVal a) (startVal b)

/-- The ordering test derived from the comparator by the ECMAScript
`SortCompare` operation: a NaN comparator result counts as `+0`, i.e. the
two elements compare as equal. -/
def sortLe (a b : Entry) : Bool :=
  match compareByDateTime a b with
  | .num n => n ≤ 0
  | .nan => true

/-- Merge step of a stable merge sort driven by a boolean test: ties keep
the left (earlier) element first.  The fuel (an upper bound on the total
length, never exhausted when called with enough) makes the recursion
structural and hence kernel-computable. -/
def jsMerge (le : α → α → Bool) : ℕ → List α → List α → List α
  | 0, xs, ys => xs ++ ys
  | _ + 1, [], ys => ys
  | _ + 1, x :: xs, [] => x :: xs
  | fuel + 1, x :: xs, y :: ys =>
    if le x y then x :: jsMerge le fuel xs (y :: ys)
    else y :: jsMerge le fuel (x :: xs) ys

/-- A stable merge sort (fuel bounds the recursion depth; `length` is
enough), modelling `Array.prototype.sort` with a comparator (ECMAScript
requires sort stability; for a comparator that is not consistent the
standard leaves the order implementation-defined, and this model then
picks the order a stable merge sort produces). -/
def jsMergeSort (le : α → α → Bool) : ℕ → List α → List α
  | 0, l => l
  | fuel + 1, l =>
    if l.length ≤ 1 then l
    else
      jsMerge le l.length (jsMergeSort le fuel (l.take (l.length / 2)))
        (jsMergeSort le fuel (l.drop (l.length / 2)))

/-- Model of `sortedEntries` (App.js lines 405–407): the display order,
`[...entries].sort(compareByDateTime)`. -/
def sortedEntries (l : List Entry) : List Entry :=
  jsMergeSort sortLe l.length l

/-- Integer date key of an entry (`0` stands in for NaN; only used on
entries whose `tanggalVal` is numeric). -/
def dateKeyI (e : Entry) : ℤ :=
  match tanggalVal e with
  | .num n => n
  | .nan => 0

/-- Integer start-minutes key of an entry (`0` stands in for NaN). -/
def startKeyI (e : Entry) : ℤ :=
  match startVal e with
  | .num n => n
  | .nan => 0

/-- Both sort keys of the entry are genuine numbers (no NaN). -/
def entryNumeric (e : Entry) : Bool :=
  (match tanggalVal e with | .num _ => true | .nan => false)
    && (match startVal e with | .num _ => true | .nan => false)

/-- Ascending lexicographic order on (date, start minutes). -/
def entryKeyLe (a b : Entry) : Prop :=
  dateKeyI a < dateKeyI b ∨ (dateKeyI a = dateKeyI b ∧ startKeyI a ≤ startKeyI b)

instance : DecidableRel entryKeyLe := fun a b => by
  unfold entryKeyLe
  infer_instance

/-! ### Quota-safe persistence writer (App.js lines 89–113) -/

/-- The persisted shape of an entry: the image field holds the IndexedDB
reference key (or null), never a raw payload. -/
structure StoredEntry where
  id : String
  tanggal : String
  jam : String
  judul_kegiatan : String
  rincian_kegiatan : String
  dokumen_pendukung : Option String
deriving DecidableEq, Repr

/-- `e.dokumen_pendukung_key || null`: JS truthiness sends both null and
the empty string to null. -/
def keyOrNull : Option String → Option String
  | some k => if k = "" then none else some k
  | none => none

/-- The map applied in `safeSaveEntries` before writing: keep the text
fields, replace the image payload by its reference key. -/
def stripEntry (e : Entry) : StoredEntry :=
  { id := e.id
    tanggal := e.tanggal
    jam := e.jam
    judul_kegiatan := e.judul_kegiatan
    rincian_kegiatan := e.rincian_kegiatan
    dokumen_pendukung := keyOrNull e.dokumen_pendukung_key }

/-- A storage behavior: which serialized entry lists
`localStorage.setItem('logbook_entries', ...)` accepts.  Writing a value
the behavior rejects throws (quota exceeded). -/
def setItemE (fits : List StoredEntry → Bool) (w : List StoredEntry) :
    Except String Unit :=
  if fits w then .ok () else .error "QuotaExceededError"

/-- What one call of the quota-safe writer did. -/
inductive SaveOutcome where
  | savedFull
  | savedPartial
  | loggedFailure
deriving DecidableEq, Repr

/-- Trace of one `safeSaveEntries` call: every list passed to `setItem`, in
order; the value that ended up stored (none if every attempt threw); and
how the call ended. -/
structure SaveResult where
  attempts : List (List StoredEntry)
  persisted : Option (List StoredEntry)
  outcome : SaveOutcome
deriving DecidableEq, Repr

/-- `arr.slice(-s)` on the stripped list: the last `s` entries (the whole
list when `s ≥ length`). -/
def suffixOf (es : List StoredEntry) (s : ℕ) : List StoredEntry :=
  es.drop (es.length - s)

/-- The retry loop of `safeSaveEntries`: while `sliceSize > 0`, try to
store the last `sliceSize` entries; on failure multiply the size by 0.8
(floored).  `acc` carries the attempts already made.  The first argument
is fuel making the recursion structural; since the slice size strictly
decreases each round, fuel equal to the starting size is never exhausted
(its run-out arm coincides with the `sliceSize = 0` exit anyway). -/
def saveLoop (fits : List StoredEntry → Bool) (es : List StoredEntry) :
    ℕ → ℕ → List (List StoredEntry) → Except String SaveResult
  | 0, _, acc => .ok ⟨acc, none, .loggedFailure⟩
  | fuel + 1, s, acc =>
    if s = 0 then .ok ⟨acc, none, .loggedFailure⟩
    else
      let w := suffixOf es s
      match setItemE fits w with
      | .ok _ => .ok ⟨acc ++ [w], some w, .savedPartial⟩
      | .error _ => saveLoop fits es fuel (s * 4 / 5) (acc ++ [w])

/-- Model of `safeSaveEntries` (App.js lines 89–113): strip images, try the
full list, and on a quota error retry with shrinking suffixes.  Every
`setItem` throw is caught, so the function always returns `.ok`. -/
def safeSaveEntries (fits : List StoredEntry → Bool) (entries : List Entry) :
    Except String SaveResult :=
  let es := entries.map stripEntry
  match setItemE fits es with
  | .ok _ => .ok ⟨[es], some es, .savedFull⟩
  | .error _ => saveLoop fits es (es.length * 4 / 5) (es.length * 4 / 5) [es]

/-- The slice sizes the retry loop will attempt, starting from `s` (the
fuel mirrors `saveLoop`). -/
def shrinkSched : ℕ → ℕ → List ℕ
  | 0, _ => []
  | fuel + 1, s => if s = 0 then [] else s :: shrinkSched fuel (s * 4 / 5)

/-- All write sizes `safeSaveEntries` can attempt for a list of `n`
entries: the full list, then `⌊0.8 n⌋, ⌊0.8 ⌊0.8 n⌋⌋, …` down to (and
excluding) `0`. -/
def writeSchedule (n : ℕ) : List ℕ :=
  n :: shrinkSched (n * 4 / 5) (n * 4 / 5)

/-! ### Reload at startup (App.js lines 116–136) -/

/-- The keyed image store.

Modelled from the spec: `idbGetImage` lives in
`src/frontend/src/lib/idb.js`, which is not part of the source tree; per
the spec it is a keyed get on the separate image store that yields the
stored payload, or null when no payload exists for the key. -/
def idbGetImage (store : String → Option String) (k : String) : Option String :=
  store k

/-- Model of the load effect (App.js lines 116–136), per stored entry: if
the persisted `dokumen_pendukung` holds a (truthy) key, restore the payload
from the image store and remember the key; otherwise null both fields. -/
def loadEntry (store : String → Option String) (se : StoredEntry) : Entry :=
  match se.dokumen_pendukung with
  | some k =>
    if k = "" then
      { id := se.id, tanggal := se.tanggal, jam := se.jam
        judul_kegiatan := se.judul_kegiatan
        rincian_kegiatan := se.rincian_kegiatan
        dokumen_pendukung := none, dokumen_pendukung_key := none }
    else
      { id := se.id, tanggal := se.tanggal, jam := se.jam
        judul_kegiatan := se.judul_kegiatan
        rincian_kegiatan := se.rincian_kegiatan
        dokumen_pendukung := idbGetImage store k
        dokumen_pendukung_key := some k }
  | none =>
    { id := se.id, tanggal := se.tanggal, jam := se.jam
      judul_kegiatan := se.judul_kegiatan
      rincian_kegiatan := se.rincian_kegiatan
      dokumen_pendukung := none, dokumen_pendukung_key := none }

/-! ### Adaptive compression driver (App.js lines 57–86) -/

/-- Model of `dataUrlSizeBytes` (App.js lines 57–63): length of the base64
body after the first comma, times 0.75, floored. -/
def dataUrlSizeBytes (s : String) : ℕ :=
  let idx := (s.data.takeWhile (fun c => c ≠ ',')).length
  let base64len := if idx < s.data.length then s.data.length - (idx + 1) else s.data.length
  base64len * 3 / 4

/-- The compressor settings carried through the driver loop: JPEG quality
and the two dimension bounds. -/
structure DriverParams where
  quality : ℚ
  maxW : ℕ
  maxH : ℕ
deriving DecidableEq, Repr

/-- The driver's starting settings: quality 0.7, 1280×1280. -/
def initParams : DriverParams := ⟨7/10, 1280, 1280⟩

/-- One failed-attempt adjustment of the driver (App.js lines 73–83):
decrement quality while it exceeds 0.5, otherwise shrink the dimension
bounds by 0.8 (floored, clamped to 480), and once both are 480 drop the
quality further with floor 0.35. -/
def stepParams (p : DriverParams) : DriverParams :=
  if 1/2 < p.quality then ⟨p.quality - 1/10, p.maxW, p.maxH⟩
  else
    let w2 := max 480 (p.maxW * 4 / 5)
    let h2 := max 480 (p.maxH * 4 / 5)
    if w2 = 480 ∧ h2 = 480 ∧ p.quality ≤ 1/2 then
      ⟨max (7/20) (p.quality - 1/10), w2, h2⟩
    else ⟨p.quality, w2, h2⟩

/-- The settings in force at the start of loop iteration `j` (every earlier
attempt having failed). -/
def paramsAt : ℕ → DriverParams
  | 0 => initParams
  | j + 1 => stepParams (paramsAt j)

/-- The loop of `compressToMaxBytes`, with `i` iterations left and a count
of compressor invocations made so far.  `compress w h q` is the (external,
deterministic) `compressImage` on the fixed source payload. -/
def driverLoop (compress : ℕ → ℕ → ℚ → String) (maxBytes : ℕ) :
    ℕ → DriverParams → ℕ → String × ℕ
  | 0, p, cnt => (compress p.maxW p.maxH (max (7/20) p.quality), cnt + 1)
  | i + 1, p, cnt =>
    let out := compress p.maxW p.maxH p.quality
    if dataUrlSizeBytes out ≤ maxBytes then (out, cnt + 1)
    else driverLoop compress maxBytes i (stepParams p) (cnt + 1)

/-- Model of `compressToMaxBytes` (App.js lines 65–86): up to 8 attempts,
then one final pass at the last-computed settings with quality floored at
0.35.  Returns the chosen payload and the number of compressor
invocations. -/
def compressToMaxBytes (compress : ℕ → ℕ → ℚ → String) (maxBytes : ℕ) :
    String × ℕ :=
  driverLoop compress maxBytes 8 initParams 0

/-- The output of loop attempt `j` (all earlier attempts having failed). -/
def attemptOut (compress : ℕ → ℕ → ℚ → String) (j : ℕ) : String :=
  compress (paramsAt j).maxW (paramsAt j).maxH (paramsAt j).quality

/-! ### Compressor dimension arithmetic (App.js lines 28–55) -/

/-- `Math.round`: round half toward positive infinity. -/
def jsRound (q : ℚ) : ℤ :=
  ⌊q + 1/2⌋

/-- The uniform downscale ratio `Math.min(1, maxWidth/width,
maxHeight/height)` computed by `compressImage`. -/
def scaleFactor (w h maxW maxH : ℕ) : ℚ :=
  min 1 (min ((maxW : ℚ) / (w : ℚ)) ((maxH : ℚ) / (h : ℚ)))

/-- The rounded target dimensions `compressImage` draws the image at. -/
def compressDims (w h maxW maxH : ℕ) : ℤ × ℤ :=
  (jsRound ((w : ℚ) * scaleFactor w h maxW maxH),
   jsRound ((h : ℚ) * scaleFactor w h maxW maxH))

/-! ### Concrete fixtures for counterexamples and witnesses -/

/-- A text-only entry (no image attached). -/
def mkEntry (i t j : String) : Entry :=
  ⟨i, t, j, "judul", "rincian", none, none⟩

/-- Component `i` of a split time string parsed to an actual number
(neither NaN nor missing). -/
def numericComp (l : List JSNum) (i : ℕ) : Prop :=
  ∃ m : ℤ, l.get? i = some (.num m)

/-- A storage behavior under which exactly the suffixes of at most 7
entries fit. -/
def fitsAtMost7 (w : List StoredEntry) : Bool :=
  w.length ≤ 7

/-- Ten distinct text-only entries. -/
def tenEntries : List Entry :=
  ["a", "b", "c", "d", "e", "f", "g", "h", "i", "j"].map (fun s => mkEntry s "" "")

/-- Same-date entry starting 05:00 (start key 300). -/
def cxBig : Entry := mkEntry "cx1" "2024-01-01" "05:00 - 06:00"

/-- Same-date entry whose jam `"9"` has a numeric hour but no minutes, so
its start key is NaN. -/
def cxNan1 : Entry := mkEntry "cx2" "2024-01-01" "9"

/-- A second NaN-keyed entry. -/
def cxNan2 : Entry := mkEntry "cx3" "2024-01-01" "9"

/-- Same-date entry starting 03:00 (start key 180). -/
def cxSmall : Entry := mkEntry "cx4" "2024-01-01" "03:00 - 04:00"

/-- The list on which the displayed order is not sorted by (date, start
time): the NaN comparator results hide that 05:00 precedes 03:00. -/
def cxList : List Entry := [cxBig, cxNan1, cxNan2, cxSmall]

/-- The spec's sort scenario: entry dated 2024-01-02, 08:00. -/
def exJan2 : Entry := mkEntry "A" "2024-01-02" "08:00 - 09:00"

/-- The spec's sort scenario: entry dated 2024-01-01, 17:00. -/
def exJan1Late : Entry := mkEntry "B" "2024-01-01" "17:00 - 18:00"

/-- The spec's sort scenario: entry dated 2024-01-01, 09:00. -/
def exJan1Early : Entry := mkEntry "C" "2024-01-01" "09:00 - 10:00"

/-- A compressor whose output shrinks once the quality drops below the
initial 0.7: `"abcdefgh"` (estimated 6 bytes) at full quality, `"ab"`
(estimated 1 byte) below it. -/
def wCompressShrink : ℕ → ℕ → ℚ → String :=
  fun _ _ q => if q < 7/10 then "ab" else "abcdefgh"

/-- A compressor that always produces the same 8-character payload
(estimated 6 bytes) regardless of settings. -/
def wCompressBig : ℕ → ℕ → ℚ → String :=
  fun _ _ _ => "abcdefgh"

/-- An image store holding a single payload under the key `"imgkey"`. -/
def wStore : String → Option String :=
  fun k => if k = "imgkey" then some "payload-data-url" else none

/-- An entry carrying an image payload and its reference key. -/
def wEntryImg : Entry :=
  ⟨"w5", "2024-05-05", "08:00 - 09:00", "judul", "rincian",
   some "payload-data-url", some "imgkey"⟩

/-! ## Theorems -/

/-! ### JS arithmetic helpers and concrete parser checks -/

theorem parseMinutes_example : parseMinutesFromJam (.jstr "09:00 - 10:30") = .num 90 := by
  decide

theorem parseMinutes_example_reversed : parseMinutesFromJam (.jstr "10:00 - 09:00") = .num 0 := by
  decide

theorem getStart_example : getStartMinutes (.jstr "09:00 - 10:30") = .num 540 := by
  decide

theorem dateParse_example : dateParseMs "2024-01-01" = .num 1704067200000 := by
  decide

theorem jsAdd_nan_right (x : JSNum) : jsAdd x .nan = .nan := by
  cases x <;> rfl

theorem jsAdd_nan_left (x : JSNum) : jsAdd .nan x = .nan := by
  cases x <;> rfl

theorem jsSubN_nan_right (x : JSNum) : jsSubN x .nan = .nan := by
  cases x <;> rfl

theorem jsSubN_nan_left (x : JSNum) : jsSubN .nan x = .nan := by
  cases x <;> rfl

theorem comp_none_of_not_numeric {l : List JSNum} {i : ℕ}
    (hn : isNaNv (l.get? i) = false) (hnum : ¬ numericComp l i) :
    l.get? i = none := by
  rcases h : l.get? i with _ | v
  · rfl
  · cases v with
    | num m => exact absurd ⟨m, h⟩ hnum
    | nan => rw [h] at hn; exact absurd hn (by simp [isNaNv])

/-! ### Stable merge sort: permutation and sortedness -/

theorem jsMerge_perm (le : α → α → Bool) :
    ∀ (fuel : ℕ) (xs ys : List α), List.Perm (jsMerge le fuel xs ys) (xs ++ ys) := by
  intro fuel
  induction fuel with
  | zero => intro xs ys; exact List.Perm.refl _
  | succ f ih =>
    intro xs ys
    match xs, ys with
    | [], ys => simp [jsMerge]
    | x :: xs, [] => simp [jsMerge]
    | x :: xs, y :: ys =>
      simp only [jsMerge]
      by_cases hle : le x y
      · rw [if_pos hle]
        exact (ih xs (y :: ys)).cons x
      · rw [if_neg hle]
        exact ((ih (x :: xs) ys).cons y).trans List.perm_middle.symm

theorem jsMerge_mem (le : α → α → Bool) (fuel : ℕ) (xs ys : List α) (a : α) :
    a ∈ jsMerge le fuel xs ys ↔ a ∈ xs ∨ a ∈ ys := by
  rw [(jsMerge_perm le fuel xs ys).mem_iff, List.mem_append]

theorem sorted_jsMerge (le : α → α → Bool) (P : α → Prop)
    (htrans : ∀ a b c, P a → P b → P c → le a b = true → le b c = true → le a c = true)
    (htot : ∀ a b, P a → P b → le a b = true ∨ le b a = true) :
    ∀ (fuel : ℕ) (xs ys : List α), xs.length + ys.length ≤ fuel →
      (∀ x ∈ xs, P x) → (∀ y ∈ ys, P y) →
      xs.Pairwise (fun a b => le a b = true) → ys.Pairwise (fun a b => le a b = true) →
      (jsMerge le fuel xs ys).Pairwise (fun a b => le a b = true) := by
  intro fuel
  induction fuel with
  | zero =>
    intro xs ys hlen _ _ _ _
    have hx : xs = [] := by cases xs <;> simp_all
    have hy : ys = [] := by cases ys <;> simp_all
    subst hx; subst hy
    exact List.Pairwise.nil
  | succ f ih =>
    intro xs ys hlen hPx hPy hsx hsy
    match xs, ys with
    | [], ys => simpa [jsMerge] using hsy
    | x :: xs, [] => simpa [jsMerge] using hsx
    | x :: xs, y :: ys =>
      simp only [jsMerge]
      have hlen' : xs.length + (y :: ys).length ≤ f := by
        simp only [List.length_cons] at hlen ⊢
        omega
      have hlen'' : (x :: xs).length + ys.length ≤ f := by
        simp only [List.length_cons] at hlen ⊢
        omega
      by_cases hle : le x y
      · rw [if_pos hle]
        rw [List.pairwise_cons] at hsx ⊢
        refine ⟨?_, ih xs (y :: ys) hlen'
          (fun a ha => hPx a (List.mem_cons_of_mem x ha)) hPy hsx.2 hsy⟩
        intro b hb
        rcases (jsMerge_mem le f xs (y :: ys) b).mp hb with hbx | hby
        · exact hsx.1 b hbx
        · rcases List.mem_cons.mp hby with rfl | hby'
          · exact hle
          · have hyb : le y b = true := (List.pairwise_cons.mp hsy).1 b hby'
            exact htrans x y b (hPx x (List.mem_cons_self x xs))
              (hPy y (List.mem_cons_self y ys)) (hPy b (List.mem_cons_of_mem y hby')) hle hyb
      · rw [if_neg hle]
        rw [List.pairwise_cons] at hsy ⊢
        have hyx : le y x = true := by
          rcases htot x y (hPx x (List.mem_cons_self x xs)) (hPy y (List.mem_cons_self y ys))
            with h | h
          · exact absurd h hle
          · exact h
        refine ⟨?_, ih (x :: xs) ys hlen''
          hPx (fun a ha => hPy a (List.mem_cons_of_mem y ha)) hsx hsy.2⟩
        intro b hb
        rcases (jsMerge_mem le f (x :: xs) ys b).mp hb with hbx | hby
        · rcases List.mem_cons.mp hbx with rfl | hbx'
          · exact hyx
          · have hxb : le x b = true := (List.pairwise_cons.mp hsx).1 b hbx'
            exact htrans y x b (hPy y (List.mem_cons_self y ys))
              (hPx x (List.mem_cons_self x xs)) (hPx b (List.mem_cons_of_mem x hbx')) hyx hxb
        · exact hsy.1 b hby

theorem jsMergeSort_perm (le : α → α → Bool) :
    ∀ (fuel : ℕ) (l : List α), List.Perm (jsMergeSort le fuel l) l := by
  intro fuel
  induction fuel with
  | zero => intro l; exact List.Perm.refl _
  | succ f ih =>
    intro l
    simp only [jsMergeSort]
    by_cases h : l.length ≤ 1
    · rw [if_pos h]
    · rw [if_neg h]
      refine (jsMerge_perm le _ _ _).trans ?_
      refine ((ih _).append (ih _)).trans ?_
      rw [List.take_append_drop]

theorem jsMergeSort_mem (le : α → α → Bool) (fuel : ℕ) (l : List α) (a : α) :
    a ∈ jsMergeSort le fuel l ↔ a ∈ l :=
  (jsMergeSort_perm le fuel l).mem_iff

theorem sorted_jsMergeSort (le : α → α → Bool) (P : α → Prop)
    (htrans : ∀ a b c, P a → P b → P c → le a b = true → le b c = true → le a c = true)
    (htot : ∀ a b, P a → P b → le a b = true ∨ le b a = true) :
    ∀ (fuel : ℕ) (l : List α), l.length ≤ fuel → (∀ x ∈ l, P x) →
      (jsMergeSort le fuel l).Pairwise (fun a b => le a b = true) := by
  intro fuel
  induction fuel with
  | zero =>
    intro l hlen _
    have hl : l = [] := by cases l <;> simp_all
    subst hl
    exact List.Pairwise.nil
  | succ f ih =>
    intro l hlen hP
    simp only [jsMergeSort]
    by_cases h : l.length ≤ 1
    · rw [if_pos h]
      match l, h with
      | [], _ => exact List.Pairwise.nil
      | [a], _ => exact List.pairwise_singleton _ a
    · rw [if_neg h]
      have hPt : ∀ x ∈ l.take (l.length / 2), P x :=
        fun x hx => hP x (List.mem_of_mem_take hx)
      have hPd : ∀ x ∈ l.drop (l.length / 2), P x :=
        fun x hx => hP x (List.mem_of_mem_drop hx)
      have hlt : (l.take (l.length / 2)).length ≤ f := by
        simp only [List.length_take]
        omega
      have hld : (l.drop (l.length / 2)).length ≤ f := by
        simp only [List.length_drop]
        omega
      refine sorted_jsMerge le P htrans htot l.length _ _ ?_ ?_ ?_
        (ih _ hlt hPt) (ih _ hld hPd)
      · rw [(jsMergeSort_perm le f _).length_eq, (jsMergeSort_perm le f _).length_eq]
        simp only [List.length_take, List.length_drop]
        omega
      · intro x hx
        exact hPt x ((jsMergeSort_mem le f _ x).mp hx)
      · intro x hx
        exact hPd x ((jsMergeSort_mem le f _ x).mp hx)

/-! ### The entry comparator on NaN-free entries -/

theorem entryNumeric_iff (e : Entry) :
    entryNumeric e = true ↔
      (∃ n, tanggalVal e = .num n) ∧ (∃ m, startVal e = .num m) := by
  unfold entryNumeric
  rcases tanggalVal e with n | _ <;> rcases startVal e with m | _ <;> simp

theorem sortLe_iff_entryKeyLe {a b : Entry}
    (ha : entryNumeric a = true) (hb : entryNumeric b = true) :
    sortLe a b = true ↔ entryKeyLe a b := by
  obtain ⟨⟨da, hda⟩, ⟨sa, hsa⟩⟩ := (entryNumeric_iff a).mp ha
  obtain ⟨⟨db, hdb⟩, ⟨sb, hsb⟩⟩ := (entryNumeric_iff b).mp hb
  have hka : dateKeyI a = da := by unfold dateKeyI; rw [hda]
  have hkb : dateKeyI b = db := by unfold dateKeyI; rw [hdb]
  have hla : startKeyI a = sa := by unfold startKeyI; rw [hsa]
  have hlb : startKeyI b = sb := by unfold startKeyI; rw [hsb]
  unfold entryKeyLe
  rw [hka, hkb, hla, hlb]
  by_cases h : da = db
  · have hcmp : compareByDateTime a b = .num (sa - sb) := by
      unfold compareByDateTime
      rw [hda, hdb, hsa, hsb]
      simp [jsStrictNeNum, jsSubN, h]
    unfold sortLe
    rw [hcmp]
    simp only [decide_eq_true_eq]
    omega
  · have hcmp : compareByDateTime a b = .num (da - db) := by
      unfold compareByDateTime
      rw [hda, hdb]
      simp [jsStrictNeNum, jsSubN, h]
    unfold sortLe
    rw [hcmp]
    simp only [decide_eq_true_eq]
    omega

theorem entryKeyLe_trans_on {a b c : Entry} :
    entryKeyLe a b → entryKeyLe b c → entryKeyLe a c := by
  unfold entryKeyLe
  intro h1 h2
  rcases h1 with h1 | ⟨h1, h1'⟩ <;> rcases h2 with h2 | ⟨h2, h2'⟩
  · left; omega
  · left; omega
  · left; omega
  · right; exact ⟨by omega, by omega⟩

theorem entryKeyLe_total_on (a b : Entry) :
    entryKeyLe a b ∨ entryKeyLe b a := by
  unfold entryKeyLe
  rcases lt_trichotomy (dateKeyI a) (dateKeyI b) with h | h | h
  · left; left; exact h
  · rcases le_total (startKeyI a) (startKeyI b) with h' | h'
    · left; right; exact ⟨h, h'⟩
    · right; right; exact ⟨h.symm, h'⟩
  · right; left; exact h

theorem pairwise_imp_of_mem {r s : α → α → Prop} :
    ∀ {l : List α}, (∀ a b, a ∈ l → b ∈ l → r a b → s a b) → l.Pairwise r → l.Pairwise s
  | [], _, _ => .nil
  | x :: xs, h, hp => by
    rw [List.pairwise_cons] at hp ⊢
    refine ⟨fun b hb =>
      h x b (List.mem_cons_self x xs) (List.mem_cons_of_mem x hb) (hp.1 b hb), ?_⟩
    exact pairwise_imp_of_mem
      (fun a b ha hb => h a b (List.mem_cons_of_mem x ha) (List.mem_cons_of_mem x hb)) hp.2

/-- C9 (amended): for every entry list the displayed order is a
permutation of the list; whenever every entry has numeric sort keys (its
date parses and its jam yields numeric start minutes) the displayed order
is sorted ascending by (date, start time); and the spec's concrete
three-entry scenario sorts to 01-01 09:00, 01-01 17:00, 01-02 08:00.  (The
numeric-keys proviso is forced: see the counterexample, where a jam whose
start minutes are NaN lets same-date entries stay out of order.) -/
theorem C9_display_sort (l : List Entry) :
    List.Perm (sortedEntries l) l ∧
    ((∀ e ∈ l, entryNumeric e = true) → List.Sorted entryKeyLe (sortedEntries l)) ∧
    sortedEntries [exJan2, exJan1Late, exJan1Early] = [exJan1Early, exJan1Late, exJan2] := by
  refine ⟨jsMergeSort_perm sortLe l.length l, ?_, by decide⟩
  intro hnum
  have htrans : ∀ a b c : Entry, entryNumeric a = true → entryNumeric b = true →
      entryNumeric c = true → sortLe a b = true → sortLe b c = true → sortLe a c = true := by
    intro a b c ha hb hc hab hbc
    exact (sortLe_iff_entryKeyLe ha hc).mpr
      (entryKeyLe_trans_on ((sortLe_iff_entryKeyLe ha hb).mp hab)
        ((sortLe_iff_entryKeyLe hb hc).mp hbc))
  have htot : ∀ a b : Entry, entryNumeric a = true → entryNumeric b = true →
      sortLe a b = true ∨ sortLe b a = true := by
    intro a b ha hb
    rcases entryKeyLe_total_on a b with h | h
    · exact Or.inl ((sortLe_iff_entryKeyLe ha hb).mpr h)
    · exact Or.inr ((sortLe_iff_entryKeyLe hb ha).mpr h)
  have hpair := sorted_jsMergeSort sortLe (fun e => entryNumeric e = true) htrans htot
    l.length l (le_refl _) hnum
  refine pairwise_imp_of_mem ?_ hpair
  intro a b ha hb hab
  exact (sortLe_iff_entryKeyLe
    (hnum a ((jsMergeSort_mem sortLe l.length l a).mp ha))
    (hnum b ((jsMergeSort_mem sortLe l.length l b).mp hb))).mp hab

/-- C9 witness: the amended theorem applied to the spec's three-entry
scenario, with the numeric-keys hypothesis discharged by computation. -/
theorem C9_display_sort_witness :
    List.Perm (sortedEntries [exJan2, exJan1Late, exJan1Early])
      [exJan2, exJan1Late, exJan1Early] ∧
    List.Sorted entryKeyLe (sortedEntries [exJan2, exJan1Late, exJan1Early]) :=
  ⟨(C9_display_sort [exJan2, exJan1Late, exJan1Early]).1,
   (C9_display_sort [exJan2, exJan1Late, exJan1Early]).2.1 (by decide)⟩

/-- C9 counterexample: on `cxList` all four entries share the date
2024-01-01, yet the displayed order keeps the 05:00 entry (start key 300)
in front of the 03:00 entry (start key 180), because the two middle
entries' jam `"9"` makes `getStartMinutes` NaN and the comparator then
reports "equal" against them; so the display order is not the list sorted
ascending by (date, start time). -/
theorem C9_counterexample :
    sortedEntries cxList = [cxBig, cxNan1, cxNan2, cxSmall] ∧
    tanggalVal cxBig = tanggalVal cxSmall ∧
    startVal cxBig = .num 300 ∧ startVal cxSmall = .num 180 := by
  decide

/-! ### The time parsers (C10) -/

theorem parseMinutes_notStr : parseMinutesFromJam .notStr = .num 0 := rfl

theorem parseMinutes_total (jam : JamArg) :
    ∃ n : ℤ, 0 ≤ n ∧ parseMinutesFromJam jam = .num n := by
  cases jam with
  | notStr => exact ⟨0, le_refl 0, rfl⟩
  | jstr s =>
    simp only [parseMinutesFromJam]
    by_cases hs : s = ""
    · exact ⟨0, le_refl 0, by rw [if_pos hs]⟩
    · rw [if_neg hs]
      match jsSplit s " - " with
      | [] => exact ⟨0, le_refl 0, rfl⟩
      | [a] => exact ⟨0, le_refl 0, rfl⟩
      | a :: b :: c :: rest => exact ⟨0, le_refl 0, rfl⟩
      | [a, b] =>
        simp only
        by_cases hguard : (isNaNv ((timeComps a).get? 0) || isNaNv ((timeComps a).get? 1)
            || isNaNv ((timeComps b).get? 0) || isNaNv ((timeComps b).get? 1)) = true
        · rw [if_pos hguard]
          exact ⟨0, le_refl 0, rfl⟩
        · rw [if_neg hguard]
          rcases hd : jsSubN
              (jsAdd (jsMul (toNum ((timeComps b).get? 0)) 60) (toNum ((timeComps b).get? 1)))
              (jsAdd (jsMul (toNum ((timeComps a).get? 0)) 60) (toNum ((timeComps a).get? 1)))
            with n | _
          · by_cases hpos : (0 : ℤ) < n
            · exact ⟨n, le_of_lt hpos, by simp [jsGt, hpos]⟩
            · exact ⟨0, le_refl 0, by simp [jsGt, hpos]⟩
          · exact ⟨0, le_refl 0, by simp [jsGt]⟩

theorem parseMinutes_badSplit (s : String) (h : (jsSplit s " - ").length ≠ 2) :
    parseMinutesFromJam (.jstr s) = .num 0 := by
  simp only [parseMinutesFromJam]
  by_cases hs : s = ""
  · rw [if_pos hs]
  · rw [if_neg hs]
    match hsp : jsSplit s " - " with
    | [] => rfl
    | [a] => rfl
    | [a, b] => rw [hsp] at h; exact absurd rfl h
    | a :: b :: c :: rest => rfl

theorem parseMinutes_badComp (s a b : String) (hsp : jsSplit s " - " = [a, b])
    (hbad : ¬ numericComp (timeComps a) 0 ∨ ¬ numericComp (timeComps a) 1 ∨
      ¬ numericComp (timeComps b) 0 ∨ ¬ numericComp (timeComps b) 1) :
    parseMinutesFromJam (.jstr s) = .num 0 := by
  have hs : s ≠ "" := by
    intro he
    subst he
    have hempty : jsSplit "" " - " = [""] := by decide
    rw [hempty] at hsp
    simp at hsp
  simp only [parseMinutesFromJam]
  rw [if_neg hs, hsp]
  simp only
  by_cases hguard : (isNaNv ((timeComps a).get? 0) || isNaNv ((timeComps a).get? 1)
      || isNaNv ((timeComps b).get? 0) || isNaNv ((timeComps b).get? 1)) = true
  · rw [if_pos hguard]
  · rw [if_neg hguard]
    simp only [Bool.or_eq_true, not_or, Bool.not_eq_true] at hguard
    obtain ⟨⟨⟨ha0, ha1⟩, hb0⟩, hb1⟩ := hguard
    have hnan : jsSubN
        (jsAdd (jsMul (toNum ((timeComps b).get? 0)) 60) (toNum ((timeComps b).get? 1)))
        (jsAdd (jsMul (toNum ((timeComps a).get? 0)) 60) (toNum ((timeComps a).get? 1)))
        = .nan := by
      rcases hbad with hbad | hbad | hbad | hbad
      · rw [comp_none_of_not_numeric ha0 hbad]
        simp only [toNum, jsMul]
        rw [jsAdd_nan_left, jsSubN_nan_right]
      · rw [comp_none_of_not_numeric ha1 hbad]
        simp only [toNum]
        rw [jsAdd_nan_right, jsSubN_nan_right]
      · rw [comp_none_of_not_numeric hb0 hbad]
        simp only [toNum, jsMul]
        rw [jsAdd_nan_left, jsSubN_nan_left]
      · rw [comp_none_of_not_numeric hb1 hbad]
        simp only [toNum]
        rw [jsAdd_nan_right, jsSubN_nan_left]
    rw [hnan]
    simp [jsGt]

theorem getStart_badComp (s : String)
    (h : isNaNv ((timeComps (startPart s)).get? 0) = true ∨
      isNaNv ((timeComps (startPart s)).get? 1) = true) :
    getStartMinutes (.jstr s) = .num 0 := by
  simp only [getStartMinutes]
  by_cases hs : s = ""
  · rw [if_pos hs]
  · rw [if_neg hs]
    rcases h with h | h <;> simp only [List.get?_eq_getElem?] at h <;> simp [h]

theorem getStart_missing_minutes (s : String) (n : ℤ)
    (h0 : (timeComps (startPart s)).get? 0 = some (.num n))
    (h1 : (timeComps (startPart s)).get? 1 = none) :
    getStartMinutes (.jstr s) = .nan := by
  have hs : s ≠ "" := by
    intro he
    subst he
    have hcomp : (timeComps (startPart "")).get? 0 = some .nan := by decide
    rw [hcomp] at h0
    simp at h0
  simp only [getStartMinutes]
  rw [if_neg hs]
  simp only [List.get?_eq_getElem?] at h0 h1
  simp [h0, h1, isNaNv, toNum, jsMul, jsAdd_nan_right]

/-- C10 (amended): the jam parsers are total.  `parseMinutesFromJam`
always returns a non-negative integer number of minutes, and returns 0 on
a non-string argument, on a string that does not split on `' - '` into
exactly two parts, and whenever any hour or minute component of either
part is not numeric (NaN or missing).  `getStartMinutes` returns 0 on a
non-string argument and whenever the hour or minute component of the
start part parses to NaN — but when the start part has a numeric hour and
no `':'`-separated minute component at all (e.g. the string `"9"`), it
returns NaN rather than 0, because `Number.isNaN(undefined)` is false and
the `h * 60 + m` arithmetic then produces NaN unguarded. -/
theorem C10_parser_totality :
    (parseMinutesFromJam .notStr = .num 0) ∧
    (∀ jam : JamArg, ∃ n : ℤ, 0 ≤ n ∧ parseMinutesFromJam jam = .num n) ∧
    (∀ s : String, (jsSplit s " - ").length ≠ 2 → parseMinutesFromJam (.jstr s) = .num 0) ∧
    (∀ s a b : String, jsSplit s " - " = [a, b] →
      (¬ numericComp (timeComps a) 0 ∨ ¬ numericComp (timeComps a) 1 ∨
        ¬ numericComp (timeComps b) 0 ∨ ¬ numericComp (timeComps b) 1) →
      parseMinutesFromJam (.jstr s) = .num 0) ∧
    (getStartMinutes .notStr = .num 0) ∧
    (∀ s : String, isNaNv ((timeComps (startPart s)).get? 0) = true ∨
      isNaNv ((timeComps (startPart s)).get? 1) = true →
      getStartMinutes (.jstr s) = .num 0) ∧
    (∀ (s : String) (n : ℤ), (timeComps (startPart s)).get? 0 = some (.num n) →
      (timeComps (startPart s)).get? 1 = none →
      getStartMinutes (.jstr s) = .nan) :=
  ⟨parseMinutes_notStr, parseMinutes_total, parseMinutes_badSplit,
   parseMinutes_badComp, rfl, getStart_badComp, getStart_missing_minutes⟩

/-- C10 witness: the amended theorem applied at concrete inputs — a
string without the time-range separator parses to 0 minutes. -/
theorem C10_parser_totality_witness :
    parseMinutesFromJam (.jstr "siang") = .num 0 ∧
    getStartMinutes (.jstr "ab:cd - 10:00") = .num 0 :=
  ⟨C10_parser_totality.2.2.1 "siang" (by decide),
   C10_parser_totality.2.2.2.2.2.1 "ab:cd - 10:00" (Or.inl (by decide))⟩

/-- C10 counterexample: the jam string `"9"` has a numeric hour and no
minute component, and `getStartMinutes` returns NaN on it, not 0. -/
theorem C10_counterexample :
    getStartMinutes (.jstr "9") = .nan ∧ getStartMinutes (.jstr "9") ≠ .num 0 := by
  decide

/-! ### Quota-safe writer (C1, C6, C7) -/

theorem saveLoop_ok (fits : List StoredEntry → Bool) (es : List StoredEntry) :
    ∀ (fuel s : ℕ) (acc : List (List StoredEntry)),
      ∃ r, saveLoop fits es fuel s acc = .ok r := by
  intro fuel
  induction fuel with
  | zero => exact fun s acc => ⟨_, rfl⟩
  | succ f ih =>
    intro s acc
    simp only [saveLoop]
    by_cases h0 : s = 0
    · rw [if_pos h0]
      exact ⟨_, rfl⟩
    · rw [if_neg h0]
      by_cases hf : fits (suffixOf es s)
      · simp only [setItemE, hf, if_true]
        exact ⟨_, rfl⟩
      · simp only [setItemE, hf, if_false]
        exact ih (s * 4 / 5) (acc ++ [suffixOf es s])

theorem saveLoop_persisted (fits : List StoredEntry → Bool) (es : List StoredEntry) :
    ∀ (fuel s : ℕ) (acc : List (List StoredEntry)) (r : SaveResult),
      saveLoop fits es fuel s acc = .ok r →
      r.persisted =
        ((shrinkSched fuel s).find? (fun t => fits (suffixOf es t))).map (suffixOf es) := by
  intro fuel
  induction fuel with
  | zero =>
    intro s acc r hr
    cases hr
    rfl
  | succ f ih =>
    intro s acc r hr
    simp only [saveLoop] at hr
    simp only [shrinkSched]
    by_cases h0 : s = 0
    · rw [if_pos h0] at hr
      rw [if_pos h0]
      cases hr
      rfl
    · rw [if_neg h0] at hr
      rw [if_neg h0]
      by_cases hf : fits (suffixOf es s)
      · simp only [setItemE, hf, if_true] at hr
        cases hr
        simp [List.find?_cons, hf]
      · simp only [setItemE, hf, if_false] at hr
        rw [List.find?_cons_of_neg _ (by simp [hf])]
        exact ih (s * 4 / 5) (acc ++ [suffixOf es s]) r hr

theorem saveLoop_attempts (fits : List StoredEntry → Bool) (es : List StoredEntry)
    (P : List StoredEntry → Prop) (hsuf : ∀ s, P (suffixOf es s)) :
    ∀ (fuel s : ℕ) (acc : List (List StoredEntry)) (r : SaveResult),
      saveLoop fits es fuel s acc = .ok r → (∀ w ∈ acc, P w) →
      ∀ w ∈ r.attempts, P w := by
  intro fuel
  induction fuel with
  | zero =>
    intro s acc r hr hacc
    cases hr
    exact hacc
  | succ f ih =>
    intro s acc r hr hacc
    simp only [saveLoop] at hr
    by_cases h0 : s = 0
    · rw [if_pos h0] at hr
      cases hr
      exact hacc
    · rw [if_neg h0] at hr
      have hacc' : ∀ w ∈ acc ++ [suffixOf es s], P w := by
        intro w hw
        rcases List.mem_append.mp hw with hw | hw
        · exact hacc w hw
        · rcases List.mem_singleton.mp hw with rfl
          exact hsuf s
      by_cases hf : fits (suffixOf es s)
      · simp only [setItemE, hf, if_true] at hr
        cases hr
        exact hacc'
      · simp only [setItemE, hf, if_false] at hr
        exact ih (s * 4 / 5) (acc ++ [suffixOf es s]) r hr hacc'

theorem suffixOf_full (es : List StoredEntry) : suffixOf es es.length = es := by
  simp [suffixOf]

theorem setItemE_fails {fits : List StoredEntry → Bool} {w : List StoredEntry}
    (hf : ¬ fits w = true) : setItemE fits w = .error "QuotaExceededError" := by
  simp [setItemE, hf]

theorem keyOrNull_cases (k : Option String) : keyOrNull k = none ∨ keyOrNull k = k := by
  match k with
  | none => exact Or.inl rfl
  | some str =>
    by_cases hs : str = ""
    · exact Or.inl (by simp [keyOrNull, hs])
    · exact Or.inr (by simp [keyOrNull, hs])

/-- C1 (amended): for every storage behavior and entry list, the writer
first attempts the full stripped list and then suffixes whose lengths
follow the schedule `⌊0.8 N⌋, ⌊0.8 ⌊0.8 N⌋⌋, …` (stopping at 0); what
remains persisted is the suffix for the *first* schedule length that the
storage accepts (`none` if none is accepted).  In particular the persisted
entries are always the most recent ones in original order, never an
arbitrary subset — but when only the most recent `K` entries fit, the
persisted count is the first schedule value `≤ K`, which can be strictly
smaller than `K` (see the counterexample). -/
theorem C1_writer_schedule (fits : List StoredEntry → Bool) (entries : List Entry) :
    ∃ r, safeSaveEntries fits entries = .ok r ∧
      r.persisted =
        ((writeSchedule (entries.map stripEntry).length).find?
            (fun s => fits (suffixOf (entries.map stripEntry) s))).map
          (suffixOf (entries.map stripEntry)) := by
  unfold safeSaveEntries writeSchedule
  generalize entries.map stripEntry = es
  by_cases hf : fits es
  · refine ⟨⟨[es], some es, .savedFull⟩, ?_, ?_⟩
    · simp [setItemE, hf]
    · rw [List.find?_cons_of_pos _ (by rw [suffixOf_full]; exact hf)]
      simp [suffixOf_full]
  · obtain ⟨r, hr⟩ := saveLoop_ok fits es (es.length * 4 / 5) (es.length * 4 / 5) [es]
    refine ⟨r, ?_, ?_⟩
    · simp [setItemE, hf, hr]
    · rw [List.find?_cons_of_neg _ (by rw [suffixOf_full]; simp [hf])]
      exact saveLoop_persisted fits es _ _ _ r hr

/-- C1 counterexample: ten entries under a storage behavior that accepts
exactly the suffixes of at most 7 entries.  The last 7 entries fit, yet the
writer persists only the last 6, because the slice-size schedule jumps
10 → 8 → 6 and never tries 7; so "exactly the last K entries are
persisted" fails as stated. -/
theorem C1_counterexample :
    safeSaveEntries fitsAtMost7 tenEntries =
      .ok ⟨[tenEntries.map stripEntry,
            suffixOf (tenEntries.map stripEntry) 8,
            suffixOf (tenEntries.map stripEntry) 6],
           some (suffixOf (tenEntries.map stripEntry) 6), .savedPartial⟩ ∧
    (suffixOf (tenEntries.map stripEntry) 6).length = 6 ∧
    fitsAtMost7 (suffixOf (tenEntries.map stripEntry) 7) = true ∧
    suffixOf (tenEntries.map stripEntry) 6 ≠ suffixOf (tenEntries.map stripEntry) 7 :=
  ⟨rfl, by decide, by decide, by decide⟩

/-- C6: every list the writer passes to `setItem` — the full attempt and
every retry suffix — consists of stripped entries: each written record
comes from some input entry, with its `dokumen_pendukung` field equal to
that entry's reference key (or null for a missing or empty key); the raw
image payload field is never serialized. -/
theorem C6_no_raw_payloads (fits : List StoredEntry → Bool) (entries : List Entry) :
    ∃ r, safeSaveEntries fits entries = .ok r ∧
      ∀ w ∈ r.attempts, ∀ se ∈ w, ∃ e ∈ entries, se = stripEntry e ∧
        (se.dokumen_pendukung = none ∨ se.dokumen_pendukung = e.dokumen_pendukung_key) := by
  have hmem : ∀ se ∈ entries.map stripEntry, ∃ e ∈ entries, se = stripEntry e ∧
      (se.dokumen_pendukung = none ∨ se.dokumen_pendukung = e.dokumen_pendukung_key) := by
    intro se hse
    obtain ⟨e, he, rfl⟩ := List.mem_map.mp hse
    refine ⟨e, he, rfl, ?_⟩
    exact keyOrNull_cases e.dokumen_pendukung_key
  have hsufmem : ∀ (s : ℕ), ∀ se ∈ suffixOf (entries.map stripEntry) s,
      se ∈ entries.map stripEntry :=
    fun s se hse => List.mem_of_mem_drop hse
  unfold safeSaveEntries
  by_cases hf : fits (entries.map stripEntry)
  · refine ⟨⟨[entries.map stripEntry], some (entries.map stripEntry), .savedFull⟩,
      by simp [setItemE, hf], ?_⟩
    intro w hw se hse
    rcases List.mem_singleton.mp hw with rfl
    exact hmem se hse
  · obtain ⟨r, hr⟩ := saveLoop_ok fits (entries.map stripEntry)
      ((entries.map stripEntry).length * 4 / 5) ((entries.map stripEntry).length * 4 / 5)
      [entries.map stripEntry]
    refine ⟨r, by simp only [setItemE_fails hf]; exact hr, ?_⟩
    intro w hw se hse
    have hP := saveLoop_attempts fits (entries.map stripEntry)
      (fun w => ∀ se ∈ w, se ∈ entries.map stripEntry) hsufmem _ _ _ r hr ?_ w hw
    · exact hmem se (hP se hse)
    · intro w' hw' se' hse'
      rcases List.mem_singleton.mp hw' with rfl
      exact hse'

/-- C6 witness: the invariant applied to the ten-entry fixture, extracting
that the final persisted attempt holds only stripped entries. -/
theorem C6_no_raw_payloads_witness :
    ∃ r, safeSaveEntries fitsAtMost7 tenEntries = .ok r ∧
      ∀ w ∈ r.attempts, ∀ se ∈ w, ∃ e ∈ tenEntries, se = stripEntry e ∧
        (se.dokumen_pendukung = none ∨ se.dokumen_pendukung = e.dokumen_pendukung_key) :=
  C6_no_raw_payloads fitsAtMost7 tenEntries

/-- C7: the quota-safe writer never lets an exception escape: for every
storage behavior and entry list it returns `.ok`, and when the full write
and every retry slice are rejected the outcome is only a logged failure
(nothing is persisted). -/
theorem C7_no_exception (fits : List StoredEntry → Bool) (entries : List Entry) :
    ∃ r, safeSaveEntries fits entries = .ok r ∧
      (r.persisted = none → r.outcome = .loggedFailure) := by
  have hout : ∀ fuel s acc r, saveLoop fits (entries.map stripEntry) fuel s acc = .ok r →
      r.persisted = none → r.outcome = .loggedFailure := by
    intro fuel
    induction fuel with
    | zero =>
      intro s acc r hr _
      cases hr
      rfl
    | succ f ih =>
      intro s acc r hr hp
      simp only [saveLoop] at hr
      by_cases h0 : s = 0
      · rw [if_pos h0] at hr
        cases hr
        rfl
      · rw [if_neg h0] at hr
        by_cases hfs : fits (suffixOf (entries.map stripEntry) s)
        · simp only [setItemE, hfs, if_true] at hr
          cases hr
          exact absurd hp (by simp)
        · simp only [setItemE, hfs, if_false] at hr
          exact ih (s * 4 / 5) _ r hr hp
  unfold safeSaveEntries
  by_cases hf : fits (entries.map stripEntry)
  · refine ⟨⟨[entries.map stripEntry], some (entries.map stripEntry), .savedFull⟩,
      by simp [setItemE, hf], ?_⟩
    intro hp
    exact absurd hp (by simp)
  · obtain ⟨r, hr⟩ := saveLoop_ok fits (entries.map stripEntry)
      ((entries.map stripEntry).length * 4 / 5) ((entries.map stripEntry).length * 4 / 5)
      [entries.map stripEntry]
    exact ⟨r, by simp only [setItemE_fails hf]; exact hr, hout _ _ _ r hr⟩

/-- C7 witness: a storage behavior that rejects everything — the writer
still returns `.ok` and merely logs the failure. -/
theorem C7_no_exception_witness :
    ∃ r, safeSaveEntries (fun _ => false) tenEntries = .ok r ∧
      (r.persisted = none → r.outcome = .loggedFailure) :=
  C7_no_exception (fun _ => false) tenEntries

/-! ### Adaptive compression driver (C2, C3, C4) -/

theorem paramsAt_one : paramsAt 1 = ⟨3/5, 1280, 1280⟩ := by
  show stepParams initParams = _
  unfold stepParams initParams
  norm_num

theorem paramsAt_two : paramsAt 2 = ⟨1/2, 1280, 1280⟩ := by
  show stepParams (paramsAt 1) = _
  rw [paramsAt_one]
  unfold stepParams
  norm_num

theorem paramsAt_three : paramsAt 3 = ⟨1/2, 1024, 1024⟩ := by
  show stepParams (paramsAt 2) = _
  rw [paramsAt_two]
  unfold stepParams
  norm_num

theorem paramsAt_four : paramsAt 4 = ⟨1/2, 819, 819⟩ := by
  show stepParams (paramsAt 3) = _
  rw [paramsAt_three]
  unfold stepParams
  norm_num

theorem paramsAt_five : paramsAt 5 = ⟨1/2, 655, 655⟩ := by
  show stepParams (paramsAt 4) = _
  rw [paramsAt_four]
  unfold stepParams
  norm_num

theorem paramsAt_six : paramsAt 6 = ⟨1/2, 524, 524⟩ := by
  show stepParams (paramsAt 5) = _
  rw [paramsAt_five]
  unfold stepParams
  norm_num

theorem paramsAt_seven : paramsAt 7 = ⟨2/5, 480, 480⟩ := by
  show stepParams (paramsAt 6) = _
  rw [paramsAt_six]
  unfold stepParams
  norm_num

theorem paramsAt_eight : paramsAt 8 = ⟨7/20, 480, 480⟩ := by
  show stepParams (paramsAt 7) = _
  rw [paramsAt_seven]
  unfold stepParams
  norm_num

/-- C3: the driver's settings follow the exact schedule: quality
0.70 → 0.60 → 0.50 at 1280×1280, then dimensions 1024 → 819 → 655 → 524
at quality 0.50, then 480×480 with quality dropping 0.40 → 0.35 (floored
at 0.35), the final pass running at quality 0.35 and 480×480. -/
theorem C3_parameter_schedule :
    paramsAt 0 = ⟨7/10, 1280, 1280⟩ ∧
    paramsAt 1 = ⟨3/5, 1280, 1280⟩ ∧
    paramsAt 2 = ⟨1/2, 1280, 1280⟩ ∧
    paramsAt 3 = ⟨1/2, 1024, 1024⟩ ∧
    paramsAt 4 = ⟨1/2, 819, 819⟩ ∧
    paramsAt 5 = ⟨1/2, 655, 655⟩ ∧
    paramsAt 6 = ⟨1/2, 524, 524⟩ ∧
    paramsAt 7 = ⟨2/5, 480, 480⟩ ∧
    paramsAt 8 = ⟨7/20, 480, 480⟩ ∧
    max (7/20) (paramsAt 8).quality = 7/20 :=
  ⟨rfl, paramsAt_one, paramsAt_two, paramsAt_three, paramsAt_four, paramsAt_five,
   paramsAt_six, paramsAt_seven, paramsAt_eight, by rw [paramsAt_eight]; exact max_self _⟩

theorem driverLoop_skip (compress : ℕ → ℕ → ℚ → String) (maxBytes : ℕ) :
    ∀ j : ℕ, j ≤ 8 → (∀ k, k < j → maxBytes < dataUrlSizeBytes (attemptOut compress k)) →
      compressToMaxBytes compress maxBytes =
        driverLoop compress maxBytes (8 - j) (paramsAt j) j := by
  intro j
  induction j with
  | zero => intro _ _; rfl
  | succ n ih =>
    intro hj hfail
    rw [ih (by omega) (fun k hk => hfail k (by omega))]
    have hstep : 8 - n = (8 - (n + 1)) + 1 := by omega
    rw [hstep]
    simp only [driverLoop]
    have hcond : ¬ (dataUrlSizeBytes
        (compress (paramsAt n).maxW (paramsAt n).maxH (paramsAt n).quality) ≤ maxBytes) := by
      have := hfail n (by omega)
      unfold attemptOut at this
      omega
    rw [if_neg hcond]
    rfl

/-- C2: if some attempt among the 8 loop iterations meets the byte target
(and `j` is the first such attempt), the driver returns that attempt's
payload immediately, having invoked the compressor exactly `j + 1 ≤ 8`
times, and the returned payload's estimated size is within the target. -/
theorem C2_early_return (compress : ℕ → ℕ → ℚ → String) (T j : ℕ)
    (hj : j < 8)
    (hfit : dataUrlSizeBytes (attemptOut compress j) ≤ T)
    (hfirst : ∀ k, k < j → T < dataUrlSizeBytes (attemptOut compress k)) :
    compressToMaxBytes compress T = (attemptOut compress j, j + 1) ∧
    j + 1 ≤ 8 ∧
    dataUrlSizeBytes (compressToMaxBytes compress T).1 ≤ T := by
  have hskip := driverLoop_skip compress T j (by omega) hfirst
  have hstep : 8 - j = (8 - (j + 1)) + 1 := by omega
  rw [hskip, hstep]
  simp only [driverLoop]
  rw [if_pos (show dataUrlSizeBytes
      (compress (paramsAt j).maxW (paramsAt j).maxH (paramsAt j).quality) ≤ T from hfit)]
  exact ⟨rfl, by omega, hfit⟩

/-- C2 witness: a target of 1 byte; the first attempt (quality 0.7)
estimates 6 bytes, the second (quality 0.6) estimates 1 byte and is
returned after exactly 2 compressor invocations. -/
theorem C2_early_return_witness :
    compressToMaxBytes wCompressShrink 1 = (attemptOut wCompressShrink 1, 2) ∧
    1 + 1 ≤ 8 ∧
    dataUrlSizeBytes (compressToMaxBytes wCompressShrink 1).1 ≤ 1 := by
  refine C2_early_return wCompressShrink 1 1 (by decide) ?_ ?_
  · unfold attemptOut
    rw [paramsAt_one]
    show dataUrlSizeBytes (if (3/5 : ℚ) < 7/10 then "ab" else "abcdefgh") ≤ 1
    rw [if_pos (by norm_num)]
    decide
  · intro k hk
    have hk0 : k = 0 := by omega
    subst hk0
    show 1 < dataUrlSizeBytes (if (7/10 : ℚ) < 7/10 then "ab" else "abcdefgh")
    rw [if_neg (lt_irrefl _)]
    decide

/-- C4: when every one of the 8 loop attempts exceeds the target, the
driver performs one final ninth compressor invocation at the last-computed
settings — 480×480 with quality floored at 0.35 — and returns its payload
unconditionally; in particular the result is non-empty whenever the
compressor never produces an empty payload, even though the size may
exceed the target. -/
theorem C4_final_pass (compress : ℕ → ℕ → ℚ → String) (T : ℕ)
    (hall : ∀ k, k < 8 → T < dataUrlSizeBytes (attemptOut compress k)) :
    compressToMaxBytes compress T = (compress 480 480 (7/20), 9) ∧
    ((∀ (a b : ℕ) (q : ℚ), compress a b q ≠ "") →
      (compressToMaxBytes compress T).1 ≠ "") := by
  have hskip := driverLoop_skip compress T 8 (le_refl 8) hall
  have hmain : compressToMaxBytes compress T = (compress 480 480 (7/20), 9) := by
    rw [hskip]
    show (compress (paramsAt 8).maxW (paramsAt 8).maxH (max (7/20) (paramsAt 8).quality), 9)
      = (compress 480 480 (7/20), 9)
    rw [paramsAt_eight]
    norm_num
  refine ⟨hmain, ?_⟩
  intro hne
  rw [hmain]
  exact hne 480 480 (7/20)

/-- C4 witness: a compressor that always emits the same 8-character
payload and a target of 0 bytes — every attempt exceeds the target and the
driver returns the final pass's non-empty payload as its 9th
invocation. -/
theorem C4_final_pass_witness :
    compressToMaxBytes wCompressBig 0 = (wCompressBig 480 480 (7/20), 9) ∧
    ((∀ (a b : ℕ) (q : ℚ), wCompressBig a b q ≠ "") →
      (compressToMaxBytes wCompressBig 0).1 ≠ "") :=
  C4_final_pass wCompressBig 0
    (fun k _ => (by decide : (0 : ℕ) < dataUrlSizeBytes "abcdefgh"))

/-! ### Round trip through storage (C5) -/

/-- C5: an entry serialized by the writer's stripping map and loaded back
has identical text fields (`id`, `tanggal`, `jam`, `judul_kegiatan`,
`rincian_kegiatan`); when the entry carried a (truthy) image reference
key, the reload restores `dokumen_pendukung` from the image store — the
stored payload, or null when the store holds nothing under that key — and
remembers the key; and when it carried no usable key both image fields
reload as null. -/
theorem C5_round_trip (store : String → Option String) (e : Entry) :
    (loadEntry store (stripEntry e)).id = e.id ∧
    (loadEntry store (stripEntry e)).tanggal = e.tanggal ∧
    (loadEntry store (stripEntry e)).jam = e.jam ∧
    (loadEntry store (stripEntry e)).judul_kegiatan = e.judul_kegiatan ∧
    (loadEntry store (stripEntry e)).rincian_kegiatan = e.rincian_kegiatan ∧
    (∀ k, e.dokumen_pendukung_key = some k → k ≠ "" →
      (loadEntry store (stripEntry e)).dokumen_pendukung = idbGetImage store k ∧
      (loadEntry store (stripEntry e)).dokumen_pendukung_key = some k) ∧
    ((e.dokumen_pendukung_key = none ∨ e.dokumen_pendukung_key = some "") →
      (loadEntry store (stripEntry e)).dokumen_pendukung = none ∧
      (loadEntry store (stripEntry e)).dokumen_pendukung_key = none) := by
  rcases hk : e.dokumen_pendukung_key with _ | k
  · simp [loadEntry, stripEntry, keyOrNull, hk]
  · by_cases hke : k = ""
    · subst hke
      simp [loadEntry, stripEntry, keyOrNull, hk]
    · simp [loadEntry, stripEntry, keyOrNull, hk, hke, idbGetImage]

/-- C5 witness: the round trip applied to a concrete entry whose image
key is present in the store. -/
theorem C5_round_trip_witness :
    (loadEntry wStore (stripEntry wEntryImg)).jam = wEntryImg.jam ∧
    (loadEntry wStore (stripEntry wEntryImg)).dokumen_pendukung = idbGetImage wStore "imgkey" :=
  ⟨(C5_round_trip wStore wEntryImg).2.2.1,
   ((C5_round_trip wStore wEntryImg).2.2.2.2.2.1 "imgkey" rfl (by decide)).1⟩

/-! ### Compressor dimension bounds (C8) -/

theorem jsRound_le_of_le {x : ℚ} {n : ℕ} (h : x ≤ (n : ℚ)) : jsRound x ≤ (n : ℤ) := by
  unfold jsRound
  have hmono : ⌊x + 1/2⌋ ≤ ⌊(n : ℚ) + 1/2⌋ := Int.floor_mono (by linarith)
  have hval : ⌊(n : ℚ) + 1/2⌋ = (n : ℤ) := by
    rw [add_comm, Int.floor_add_nat]
    norm_num
  omega

/-- C8: `compressImage` computes the uniform downscale ratio
`min(1, maxWidth/width, maxHeight/height)` and rounds; for any positive
source dimensions the resulting target dimensions never exceed the
configured bounds nor the source dimensions (no upscaling). -/
theorem C8_compressor_dims (w h maxW maxH : ℕ) (hw : 0 < w) (hh : 0 < h) :
    (compressDims w h maxW maxH).1 ≤ (maxW : ℤ) ∧
    (compressDims w h maxW maxH).2 ≤ (maxH : ℤ) ∧
    (compressDims w h maxW maxH).1 ≤ (w : ℤ) ∧
    (compressDims w h maxW maxH).2 ≤ (h : ℤ) := by
  have hr1 : scaleFactor w h maxW maxH ≤ 1 := min_le_left _ _
  have hrW : scaleFactor w h maxW maxH ≤ (maxW : ℚ) / (w : ℚ) :=
    le_trans (min_le_right _ _) (min_le_left _ _)
  have hrH : scaleFactor w h maxW maxH ≤ (maxH : ℚ) / (h : ℚ) :=
    le_trans (min_le_right _ _) (min_le_right _ _)
  have hw0 : (0 : ℚ) < (w : ℚ) := by exact_mod_cast hw
  have hh0 : (0 : ℚ) < (h : ℚ) := by exact_mod_cast hh
  refine ⟨?_, ?_, ?_, ?_⟩
  · apply jsRound_le_of_le
    calc (w : ℚ) * scaleFactor w h maxW maxH
        ≤ (w : ℚ) * ((maxW : ℚ) / (w : ℚ)) :=
          mul_le_mul_of_nonneg_left hrW (le_of_lt hw0)
      _ = (maxW : ℚ) := by field_simp
  · apply jsRound_le_of_le
    calc (h : ℚ) * scaleFactor w h maxW maxH
        ≤ (h : ℚ) * ((maxH : ℚ) / (h : ℚ)) :=
          mul_le_mul_of_nonneg_left hrH (le_of_lt hh0)
      _ = (maxH : ℚ) := by field_simp
  · apply jsRound_le_of_le
    calc (w : ℚ) * scaleFactor w h maxW maxH
        ≤ (w : ℚ) * 1 := mul_le_mul_of_nonneg_left hr1 (le_of_lt hw0)
      _ = (w : ℚ) := mul_one _
  · apply jsRound_le_of_le
    calc (h : ℚ) * scaleFactor w h maxW maxH
        ≤ (h : ℚ) * 1 := mul_le_mul_of_nonneg_left hr1 (le_of_lt hh0)
      _ = (h : ℚ) := mul_one _

/-- C8 witness: a 1000×500 source under a 640×640 configuration stays
within both the configuration and the source dimensions. -/
theorem C8_compressor_dims_witness :
    (compressDims 1000 500 640 640).1 ≤ (640 : ℤ) ∧
    (compressDims 1000 500 640 640).2 ≤ (640 : ℤ) ∧
    (compressDims 1000 500 640 640).1 ≤ (1000 : ℤ) ∧
    (compressDims 1000 500 640 640).2 ≤ (500 : ℤ) :=
  C8_compressor_dims 1000 500 640 640 (by decide) (by decide)

end Logbook
